import Mathlib

/-!
# Verification of the AS21 consolidation engine (`src/app.py`)

A shallow embedding of the tabular consolidation code of `AS21Processor`
(`_safe_numeric_conversion`, `_calculate_eliminations`,
`_add_subsidiary_amounts`, `process_consolidation`) over an explicit
dataframe model, together with theorems settling the specification's
claims about it.

A pandas `DataFrame` is modelled column-orientedly: an ordered list of
(column-name, cell-list) pairs sharing the positional integer index.
A cell is a number (modelled as `ℚ`), a text value, or the missing
value `NaN`.
-/

/-- A cell value of a dataframe: a number, a text value, or pandas' NaN. -/
inductive Val where
  | num (q : ℚ)
  | str (s : String)
  | nan
deriving DecidableEq, Repr

namespace Val

/-- `notna` on a single cell (after `pd.to_numeric` a cell is `num` or `nan`). -/
def isNum : Val → Bool
  | num _ => true
  | _ => false

/-- Addition of two cells inside `consolidated[column] += ...`: two
numbers add, and a missing value (a float NaN) absorbs, exactly as in
pandas. Pandas has no total behavior for a text operand: adding a float
series to an object column that contains a string raises `TypeError` and
aborts the whole run before any output exists. This model stays total and
returns `nan` for a text operand purely as an out-of-model marker; every
theorem whose conclusion depends on the result of an addition therefore
carries a numericity hypothesis on the consolidated-side column
(`is_numeric_column`, i.e. no text cell) confining the statement to the
raise-free region, where the program really returns and where this
function agrees with pandas cell for cell. -/
def add : Val → Val → Val
  | num a, num b => num (a + b)
  | _, _ => nan

end Val

/-- Digit-string to natural number, `none` when a non-digit occurs or the
string is empty. -/
def digitsToNat : List Char → Option ℕ
  | [] => none
  | cs =>
    if cs.all Char.isDigit then
      some (cs.foldl (fun a c => a * 10 + (c.toNat - 48)) 0)
    else none

/-- Splitting a character list at every dot, as `str.split(".")` does. -/
def splitDot : List Char → List (List Char)
  | [] => [[]]
  | c :: rest =>
    if c = '.' then [] :: splitDot rest
    else
      match splitDot rest with
      | [] => [[c]]
      | p :: ps => (c :: p) :: ps

/-- Decimal-literal parsing backing `pd.to_numeric(..., errors="coerce")`:
an optional sign, an integer part, and an optional fractional part. -/
def parseRat (s : String) : Option ℚ :=
  let signed : ℚ × List Char :=
    match s.data with
    | c :: rest =>
      if c = '-' then (-1, rest)
      else if c = '+' then (1, rest)
      else (1, c :: rest)
    | [] => (1, [])
  match splitDot signed.2 with
  | [intPart] => (digitsToNat intPart).map (fun n => signed.1 * n)
  | [intPart, fracPart] =>
    match digitsToNat intPart, digitsToNat fracPart with
    | some a, some b => some (signed.1 * ((a : ℚ) + (b : ℚ) / (10 ^ fracPart.length)))
    | _, _ => none
  | _ => none

/-- `pd.to_numeric(value, errors="coerce")` on one cell: numbers pass
through, parseable text becomes a number, everything else becomes NaN. -/
def toNumeric : Val → Val
  | .num q => .num q
  | .str s =>
    match parseRat s with
    | some q => .num q
    | none => .nan
  | .nan => .nan

/-- `.fillna(0)` on one cell. -/
def fillZero (v : Val) : Val :=
  match v with
  | .nan => .num 0
  | v => v

/-- The numeric content of a converted cell (`num q ↦ q`, otherwise `0`);
composition of `toNumeric` and `fillZero` read back as a rational. -/
def numOrZero : Val → ℚ
  | .num q => q
  | _ => 0

/-- `Series.sum()`: sum of the numeric cells, missing values skipped. -/
def sumNum (l : List Val) : ℚ :=
  l.foldl (fun a v => match v with | .num q => a + q | _ => a) 0

/-- `pd.api.types.is_numeric_dtype`: a column is of numeric dtype exactly
when every cell is a number or a missing value (a text cell forces the
`object` dtype). -/
def is_numeric_column (l : List Val) : Bool :=
  l.all (fun v => match v with | .num _ => true | .nan => true | .str _ => false)

/-- Containment test over character lists: `chContains hay needle` holds
when `needle` occurs as a contiguous subsequence of `hay`. -/
def chContains (hay needle : List Char) : Bool :=
  (List.range (hay.length + 1)).any (fun i => needle.isPrefixOf (hay.drop i))

/-- `str.lower()`, character by character. -/
def lowerChars (s : String) : List Char :=
  s.data.map Char.toLower

/-- `"intercompany" in column.lower()`. -/
def containsIC (column : String) : Bool :=
  chContains (lowerChars column) "intercompany".data

/-- A pandas dataframe: ordered columns over a shared positional index. -/
structure DF where
  cols : List (String × List Val)
deriving DecidableEq, Repr

namespace DF

/-- `df.columns`. -/
def columns (df : DF) : List String :=
  df.cols.map Prod.fst

/-- `column in df.columns`. -/
def hasCol (df : DF) (c : String) : Bool :=
  df.cols.any (fun p => p.1 == c)

/-- `df[c]`: the cell list of the first column named `c` (empty when the
column is absent). -/
def get (df : DF) (c : String) : List Val :=
  match df.cols.find? (fun p => p.1 == c) with
  | some p => p.2
  | none => []

/-- `df[c] = vs`: replace the column named `c` in place, or append it as a
new last column. -/
def setCol (df : DF) (c : String) (vs : List Val) : DF :=
  if df.hasCol c then
    ⟨df.cols.map (fun p => if p.1 == c then (c, vs) else p)⟩
  else
    ⟨df.cols ++ [(c, vs)]⟩

/-- `len(df)`: the length of the shared index, read off the first column. -/
def nrows (df : DF) : ℕ :=
  match df.cols with
  | [] => 0
  | p :: _ => p.2.length

end DF

/-- One column of `_safe_numeric_conversion`: when any cell parses as a
number (`numeric_mask.any()`), the whole column is converted with parse
failures coerced to `0`; otherwise the column is left unchanged. -/
def convertColumn (vs : List Val) : List Val :=
  let converted := vs.map toNumeric
  if converted.any Val.isNum then converted.map fillZero else vs

/-- `AS21Processor._safe_numeric_conversion` (src/app.py lines 36-47). -/
def safe_numeric_conversion (df : DF) : DF :=
  ⟨df.cols.map (fun p => (p.1, convertColumn p.2))⟩

/-- The dictionary returned by `AS21Processor._calculate_eliminations`. -/
structure Eliminations where
  investment : ℚ
  intercompany_transactions : ℚ
  unrealized_profit : ℚ
deriving DecidableEq, Repr

/-- `AS21Processor._calculate_eliminations` (src/app.py lines 123-147). -/
def calculate_eliminations (parent_df subsidiary_df : DF) : Eliminations :=
  let investment : ℚ :=
    if parent_df.hasCol "investment_in_subsidiary" then
      sumNum ((parent_df.get "investment_in_subsidiary").map toNumeric)
    else 0
  let intercompany : ℚ :=
    if parent_df.hasCol "intercompany_receivables" && subsidiary_df.hasCol "intercompany_payables" then
      min (sumNum ((parent_df.get "intercompany_receivables").map toNumeric))
          (sumNum ((subsidiary_df.get "intercompany_payables").map toNumeric))
    else 0
  ⟨investment, intercompany, 0⟩

/-- `minority_interest_{column}`. -/
def miName (c : String) : String :=
  "minority_interest_" ++ c

/-- `pd.to_numeric(subsidiary[column], errors="coerce").fillna(0)`, read as
rationals. -/
def subNumeric (subsidiary : DF) (c : String) : List ℚ :=
  ((subsidiary.get c).map toNumeric).map numOrZero

/-- `consolidated[column] += sub_values * (ownership/100)`: index-aligned
addition onto the existing column; positions past the end of the
subsidiary series become `NaN`. -/
def alignAdd (cv : List Val) (sv : List ℚ) : List Val :=
  (List.range cv.length).map (fun i =>
    Val.add (cv.getD i .nan) (if i < sv.length then .num (sv.getD i 0) else .nan))

/-- Reindexing a series onto a dataframe index of length `n`, as column
assignment does: missing positions become `NaN`. -/
def padTo (n : ℕ) (vs : List Val) : List Val :=
  (List.range n).map (fun i => vs.getD i .nan)

/-- One iteration of the column loop of
`AS21Processor._add_subsidiary_amounts` (src/app.py lines 159-173). -/
def addStep (subsidiary : DF) (ownership : ℚ) (cons : DF) (column : String) : DF :=
  if cons.hasCol column && is_numeric_column (subsidiary.get column) then
    if containsIC column then cons
    else
      let sub_values := subNumeric subsidiary column
      let cons1 := cons.setCol column
        (alignAdd (cons.get column) (sub_values.map (fun v => v * (ownership / 100))))
      cons1.setCol (miName column)
        (padTo cons1.nrows (sub_values.map (fun v => Val.num (v * (1 - ownership / 100)))))
  else cons

/-- `AS21Processor._add_subsidiary_amounts` (src/app.py lines 149-175).
The `eliminations` dictionary is received and ignored, as in the source. -/
def add_subsidiary_amounts (consolidated subsidiary : DF)
    (eliminations : Eliminations) (ownership : ℚ) : DF :=
  let _ := eliminations
  subsidiary.columns.foldl (addStep subsidiary ownership) consolidated

/-- Ownership extraction of `process_consolidation` (src/app.py lines
107-111): the first cell of the converted `ownership_percentage` column,
`100` when the column is absent or empty. -/
def extractOwnership (sub_df : DF) : Val :=
  if sub_df.hasCol "ownership_percentage" then
    match (sub_df.get "ownership_percentage").map toNumeric with
    | [] => .num 100
    | v :: _ => v
  else .num 100

/-- One iteration of the subsidiary loop of
`AS21Processor.process_consolidation` (src/app.py lines 103-119): convert
the subsidiary, read its ownership percentage, and fold it in only when
the AS21 control criterion `ownership > 50` holds. -/
def processStep (consolidated sub0 : DF) : DF :=
  let sub_df := safe_numeric_conversion sub0
  match extractOwnership sub_df with
  | .num ownership =>
    if 50 < ownership then
      add_subsidiary_amounts consolidated sub_df
        (calculate_eliminations consolidated sub_df) ownership
    else consolidated
  | _ => consolidated

/-- `AS21Processor.process_consolidation` (src/app.py lines 95-121). -/
def process_consolidation (parent_df : DF) (subsidiary_dfs : List DF) : DF :=
  subsidiary_dfs.foldl processStep (safe_numeric_conversion (parent_df))

/-! ## Basic dataframe lemmas -/

namespace DF

theorem get_nil (c : String) : (⟨[]⟩ : DF).get c = [] := rfl

theorem get_cons (p : String × List Val) (ps : List (String × List Val)) (c : String) :
    (⟨p :: ps⟩ : DF).get c = if p.1 = c then p.2 else (⟨ps⟩ : DF).get c := by
  by_cases h : p.1 = c
  · simp [DF.get, List.find?_cons, h]
  · have hb : (p.1 == c) = false := beq_eq_false_iff_ne.mpr h
    simp [DF.get, List.find?_cons, hb, h]

theorem hasCol_cons (p : String × List Val) (ps : List (String × List Val)) (c : String) :
    (⟨p :: ps⟩ : DF).hasCol c = ((p.1 == c) || (⟨ps⟩ : DF).hasCol c) := by
  simp [DF.hasCol]

theorem hasCol_nil (c : String) : (⟨[]⟩ : DF).hasCol c = false := rfl

theorem get_replace_self (l : List (String × List Val)) (c : String) (vs : List Val) :
    (l.any (fun p => p.1 == c)) = true →
      (⟨l.map (fun p => if p.1 == c then (c, vs) else p)⟩ : DF).get c = vs := by
  induction l with
  | nil => intro h; simp at h
  | cons p ps ih =>
    intro h
    by_cases hp : p.1 = c
    · have hrepl : (if p.1 == c then (c, vs) else p) = (c, vs) := by
        simp [beq_iff_eq.mpr hp]
      rw [List.map_cons, hrepl, get_cons, if_pos rfl]
    · have hb : (p.1 == c) = false := beq_eq_false_iff_ne.mpr hp
      have hrepl : (if p.1 == c then (c, vs) else p) = p := by simp [hb]
      rw [List.map_cons, hrepl, get_cons, if_neg hp]
      apply ih
      simpa [hb] using h

theorem get_replace_ne (l : List (String × List Val)) (c x : String) (vs : List Val)
    (hx : x ≠ c) :
    (⟨l.map (fun p => if p.1 == c then (c, vs) else p)⟩ : DF).get x = (⟨l⟩ : DF).get x := by
  induction l with
  | nil => rfl
  | cons p ps ih =>
    by_cases hp : p.1 = c
    · have hrepl : (if p.1 == c then (c, vs) else p) = (c, vs) := by
        simp [beq_iff_eq.mpr hp]
      rw [List.map_cons, hrepl, get_cons, get_cons]
      rw [if_neg (fun h => hx h.symm), if_neg (by rw [hp]; exact fun h => hx h.symm)]
      exact ih
    · have hb : (p.1 == c) = false := beq_eq_false_iff_ne.mpr hp
      have hrepl : (if p.1 == c then (c, vs) else p) = p := by simp [hb]
      rw [List.map_cons, hrepl, get_cons, get_cons]
      by_cases hpx : p.1 = x
      · simp [hpx]
      · rw [if_neg hpx, if_neg hpx]
        exact ih

theorem get_append_single_self (l : List (String × List Val)) (c : String) (vs : List Val)
    (h : (l.any (fun p => p.1 == c)) = false) :
    (⟨l ++ [(c, vs)]⟩ : DF).get c = vs := by
  induction l with
  | nil => simp [get_cons]
  | cons p ps ih =>
    simp only [List.any_cons, Bool.or_eq_false_iff] at h
    rw [List.cons_append, get_cons]
    rw [if_neg (by intro hp; rw [hp] at h; simp at h)]
    exact ih h.2

theorem get_append_single_ne (l : List (String × List Val)) (c x : String) (vs : List Val)
    (hx : x ≠ c) :
    (⟨l ++ [(c, vs)]⟩ : DF).get x = (⟨l⟩ : DF).get x := by
  induction l with
  | nil =>
    rw [List.nil_append, get_cons, if_neg (fun h => hx h.symm)]
  | cons p ps ih =>
    rw [List.cons_append, get_cons, get_cons]
    by_cases hpx : p.1 = x
    · simp [hpx]
    · rw [if_neg hpx, if_neg hpx]
      exact ih

theorem get_setCol_self (df : DF) (c : String) (vs : List Val) :
    (df.setCol c vs).get c = vs := by
  unfold setCol
  by_cases h : df.hasCol c = true
  · rw [if_pos h]
    exact get_replace_self df.cols c vs h
  · rw [if_neg h]
    have h' : df.hasCol c = false := by rwa [Bool.not_eq_true] at h
    exact get_append_single_self df.cols c vs h'

theorem get_setCol_ne (df : DF) (c x : String) (vs : List Val) (hx : x ≠ c) :
    (df.setCol c vs).get x = df.get x := by
  unfold setCol
  by_cases h : df.hasCol c = true
  · rw [if_pos h]; exact get_replace_ne df.cols c x vs hx
  · rw [if_neg h]; exact get_append_single_ne df.cols c x vs hx

theorem columns_setCol (df : DF) (c : String) (vs : List Val) :
    (df.setCol c vs).columns = if df.hasCol c then df.columns else df.columns ++ [c] := by
  unfold setCol
  by_cases h : df.hasCol c = true
  · rw [if_pos h, if_pos h]
    show (df.cols.map _).map Prod.fst = df.cols.map Prod.fst
    rw [List.map_map]
    apply List.map_congr_left
    intro p _
    by_cases hp : p.1 = c
    · simp [hp]
    · simp [hp, beq_eq_false_iff_ne.mpr hp]
  · rw [if_neg h, if_neg h]
    simp [DF.columns]

theorem hasCol_eq_columns_contains (df : DF) (x : String) :
    df.hasCol x = df.columns.any (fun c => c == x) := by
  show (df.cols.any fun p => p.1 == x) = (df.cols.map Prod.fst).any fun c => c == x
  induction df.cols with
  | nil => rfl
  | cons p ps ih => simp [List.any_cons, ih]

theorem hasCol_setCol_mono (df : DF) (c x : String) (vs : List Val)
    (h : df.hasCol x = true) : (df.setCol c vs).hasCol x = true := by
  rw [hasCol_eq_columns_contains, columns_setCol]
  rw [hasCol_eq_columns_contains] at h
  by_cases hc : df.hasCol c = true
  · rw [if_pos hc]; exact h
  · rw [if_neg hc]; simp [List.any_append, h]

theorem cols_setCol_ne_nil (df : DF) (c : String) (vs : List Val)
    (h : df.cols ≠ []) : (df.setCol c vs).cols ≠ [] := by
  unfold setCol
  by_cases hc : df.hasCol c = true
  · rw [if_pos hc]
    simpa using h
  · rw [if_neg hc]
    simp

theorem hasCol_cols_ne_nil (df : DF) (c : String) (h : df.hasCol c = true) :
    df.cols ≠ [] := by
  intro hnil
  rw [show df = (⟨[]⟩ : DF) from by cases df; simpa using hnil] at h
  simp [hasCol_nil] at h

theorem nrows_setCol_of_hasCol (df : DF) (c : String) (vs : List Val)
    (h : df.hasCol c = true) (hlen : vs.length = (df.get c).length) :
    (df.setCol c vs).nrows = df.nrows := by
  obtain ⟨l⟩ := df
  cases l with
  | nil => simp [hasCol_nil] at h
  | cons p ps =>
    unfold setCol
    rw [if_pos h]
    by_cases hp : p.1 = c
    · have hb : (p.1 == c) = true := beq_iff_eq.mpr hp
      simp only [List.map_cons, hb, if_pos]
      show vs.length = p.2.length
      rw [hlen, get_cons, if_pos hp]
    · have hb : (p.1 == c) = false := beq_eq_false_iff_ne.mpr hp
      simp only [List.map_cons, hb, Bool.false_eq_true, if_neg]
      rfl

theorem nrows_setCol_of_length_nrows (df : DF) (c : String) (vs : List Val)
    (h : df.cols ≠ []) (hlen : vs.length = df.nrows) :
    (df.setCol c vs).nrows = df.nrows := by
  obtain ⟨l⟩ := df
  cases l with
  | nil => exact absurd rfl h
  | cons p ps =>
    unfold setCol
    by_cases hc : (⟨p :: ps⟩ : DF).hasCol c = true
    · rw [if_pos hc]
      by_cases hp : p.1 = c
      · have hb : (p.1 == c) = true := beq_iff_eq.mpr hp
        simp only [List.map_cons, hb, if_pos]
        exact hlen
      · have hb : (p.1 == c) = false := beq_eq_false_iff_ne.mpr hp
        simp only [List.map_cons, hb, Bool.false_eq_true, if_neg]
        rfl
    · rw [if_neg hc]
      rfl

end DF

/-! ## Conversion lemmas -/

theorem convertColumn_length (vs : List Val) : (convertColumn vs).length = vs.length := by
  by_cases h : ((vs.map toNumeric).any Val.isNum) = true
  · simp [convertColumn, h]
  · simp only [Bool.not_eq_true] at h
    simp [convertColumn, h]

theorem columns_conv (df : DF) : (safe_numeric_conversion df).columns = df.columns := by
  show (df.cols.map _).map Prod.fst = df.cols.map Prod.fst
  rw [List.map_map]
  rfl

theorem hasCol_conv (df : DF) (c : String) :
    (safe_numeric_conversion df).hasCol c = df.hasCol c := by
  rw [DF.hasCol_eq_columns_contains, DF.hasCol_eq_columns_contains, columns_conv]

theorem get_conv_aux (l : List (String × List Val)) (c : String) :
    (⟨l.map (fun p => (p.1, convertColumn p.2))⟩ : DF).get c =
      if (⟨l⟩ : DF).hasCol c then convertColumn ((⟨l⟩ : DF).get c) else [] := by
  induction l with
  | nil =>
    rw [if_neg (by rw [DF.hasCol_nil]; simp)]
    rfl
  | cons p ps ih =>
    rw [List.map_cons, DF.get_cons, DF.get_cons, DF.hasCol_cons]
    by_cases hp : p.1 = c
    · rw [if_pos hp]
      show convertColumn p.2 = _
      rw [if_pos (by simp [hp]), if_pos hp]
    · rw [if_neg hp]
      show _ = if ((p.1 == c) || (⟨ps⟩ : DF).hasCol c) = true then
        convertColumn (if p.1 = c then p.2 else (⟨ps⟩ : DF).get c) else []
      rw [beq_eq_false_iff_ne.mpr hp, if_neg hp, Bool.false_or, ih]

theorem get_conv (df : DF) (c : String) :
    (safe_numeric_conversion df).get c =
      if df.hasCol c then convertColumn (df.get c) else [] := by
  obtain ⟨l⟩ := df
  exact get_conv_aux l c

theorem nrows_conv (df : DF) : (safe_numeric_conversion df).nrows = df.nrows := by
  obtain ⟨l⟩ := df
  cases l with
  | nil => rfl
  | cons p ps =>
    show (convertColumn p.2).length = p.2.length
    exact convertColumn_length p.2

theorem alignAdd_length (cv : List Val) (sv : List ℚ) :
    (alignAdd cv sv).length = cv.length := by
  simp [alignAdd]

theorem padTo_length (n : ℕ) (vs : List Val) : (padTo n vs).length = n := by
  simp [padTo]

/-! ## Lemmas about the column loop of `_add_subsidiary_amounts` -/

theorem addStep_not_hasCol (sub : DF) (o : ℚ) (cons : DF) (c : String)
    (h : cons.hasCol c = false) : addStep sub o cons c = cons := by
  simp [addStep, h]

theorem addStep_ic (sub : DF) (o : ℚ) (cons : DF) (c : String)
    (h : containsIC c = true) : addStep sub o cons c = cons := by
  simp [addStep, h]

theorem addStep_get_ne (sub : DF) (o : ℚ) (cons : DF) (c x : String)
    (hx1 : x ≠ c) (hx2 : x ≠ miName c) :
    (addStep sub o cons c).get x = cons.get x := by
  unfold addStep
  split
  · split
    · rfl
    · rw [DF.get_setCol_ne _ _ _ _ hx2, DF.get_setCol_ne _ _ _ _ hx1]
  · rfl

theorem addStep_hasCol_mono (sub : DF) (o : ℚ) (cons : DF) (c x : String)
    (h : cons.hasCol x = true) : (addStep sub o cons c).hasCol x = true := by
  unfold addStep
  split
  · split
    · exact h
    · exact DF.hasCol_setCol_mono _ _ _ _ (DF.hasCol_setCol_mono _ _ _ _ h)
  · exact h

theorem addStep_nrows (sub : DF) (o : ℚ) (cons : DF) (c : String) :
    (addStep sub o cons c).nrows = cons.nrows := by
  unfold addStep
  split
  · split
    · rfl
    · rename_i hguard hic
      have hhas : cons.hasCol c = true := by
        cases hh : cons.hasCol c
        · rw [hh] at hguard; simp at hguard
        · rfl
      have h1 : (cons.setCol c (alignAdd (cons.get c)
          ((subNumeric sub c).map (fun v => v * (o / 100))))).nrows = cons.nrows :=
        DF.nrows_setCol_of_hasCol _ _ _ hhas (alignAdd_length _ _)
      rw [DF.nrows_setCol_of_length_nrows _ _ _
        (DF.cols_setCol_ne_nil _ _ _ (DF.hasCol_cols_ne_nil _ _ hhas))
        (padTo_length _ _), h1]
  · rfl

theorem foldl_addStep_nrows (sub : DF) (o : ℚ) (L : List String) (cons : DF) :
    (L.foldl (addStep sub o) cons).nrows = cons.nrows := by
  induction L generalizing cons with
  | nil => rfl
  | cons c cs ih => rw [List.foldl_cons, ih, addStep_nrows]

theorem foldl_addStep_hasCol_mono (sub : DF) (o : ℚ) (L : List String) (cons : DF)
    (x : String) (h : cons.hasCol x = true) :
    (L.foldl (addStep sub o) cons).hasCol x = true := by
  induction L generalizing cons with
  | nil => exact h
  | cons c cs ih => exact ih _ (addStep_hasCol_mono _ _ _ _ _ h)

theorem foldl_addStep_get_pres (sub : DF) (o : ℚ) (L : List String) (cons : DF)
    (x : String)
    (h : ∀ c ∈ L, containsIC c = true ∨ (x ≠ c ∧ x ≠ miName c)) :
    (L.foldl (addStep sub o) cons).get x = cons.get x := by
  induction L generalizing cons with
  | nil => rfl
  | cons c cs ih =>
    rw [List.foldl_cons]
    have hstep : (addStep sub o cons c).get x = cons.get x := by
      rcases h c (by simp) with hic | ⟨h1, h2⟩
      · rw [addStep_ic _ _ _ _ hic]
      · exact addStep_get_ne _ _ _ _ _ h1 h2
    rw [ih _ (fun c' hc' => h c' (by simp [hc'])), hstep]

theorem foldl_addStep_skip_all (sub : DF) (o : ℚ) (L : List String) (cons : DF)
    (h : ∀ c ∈ L, cons.hasCol c = false) :
    L.foldl (addStep sub o) cons = cons := by
  induction L with
  | nil => rfl
  | cons c cs ih =>
    rw [List.foldl_cons, addStep_not_hasCol _ _ _ _ (h c (by simp))]
    exact ih (fun c' hc' => h c' (by simp [hc']))

theorem add_subsidiary_amounts_eq_foldl (cons sub : DF) (e : Eliminations) (o : ℚ) :
    add_subsidiary_amounts cons sub e o = sub.columns.foldl (addStep sub o) cons := rfl

theorem miName_inj {a b : String} (h : miName a = miName b) : a = b := by
  unfold miName at h
  have hd : "minority_interest_".data ++ a.data = "minority_interest_".data ++ b.data :=
    congrArg String.data h
  have hab : a.data = b.data := List.append_cancel_left hd
  cases a
  cases b
  exact congrArg String.mk hab

/-- The two writes performed for a processed column `c`: provided no other
column of the subsidiary collides with `c` or with its
`minority_interest_` companion, `_add_subsidiary_amounts` adds the
ownership-scaled subsidiary values onto the consolidated column and
assigns raw-value minority interest into `minority_interest_c`. -/
theorem addSub_get_write (cons sub : DF) (e : Eliminations) (o : ℚ) (c : String)
    (hnd : sub.columns.Nodup) (hmem : c ∈ sub.columns)
    (hhas : cons.hasCol c = true) (hnum : is_numeric_column (sub.get c) = true)
    (hic : containsIC c = false)
    (hmi1 : ∀ c' ∈ sub.columns, c ≠ miName c')
    (hmi2 : miName c ∉ sub.columns) :
    ((add_subsidiary_amounts cons sub e o).get c =
        alignAdd (cons.get c) ((subNumeric sub c).map (fun v => v * (o / 100)))) ∧
    ((add_subsidiary_amounts cons sub e o).get (miName c) =
        padTo cons.nrows ((subNumeric sub c).map (fun v => Val.num (v * (1 - o / 100))))) := by
  obtain ⟨L1, L2, hL⟩ := List.append_of_mem hmem
  have hnd' : (L1 ++ c :: L2).Nodup := hL ▸ hnd
  rw [List.nodup_append] at hnd'
  obtain ⟨-, hnd2, hdisj⟩ := hnd'
  rw [List.nodup_cons] at hnd2
  have hcL1 : c ∉ L1 := fun hc => hdisj hc (by simp)
  have hcL2 : c ∉ L2 := hnd2.1
  have hsubL1 : ∀ c' ∈ L1, c' ∈ sub.columns := fun c' hc' => by rw [hL]; simp [hc']
  have hsubL2 : ∀ c' ∈ L2, c' ∈ sub.columns := fun c' hc' => by rw [hL]; simp [hc']
  rw [add_subsidiary_amounts_eq_foldl, hL, List.foldl_append, List.foldl_cons]
  have hs1get : (L1.foldl (addStep sub o) cons).get c = cons.get c :=
    foldl_addStep_get_pres sub o L1 cons c (fun c' hc' =>
      Or.inr ⟨fun hcc => hcL1 (hcc ▸ hc'), hmi1 c' (hsubL1 c' hc')⟩)
  have hs1has : (L1.foldl (addStep sub o) cons).hasCol c = true :=
    foldl_addStep_hasCol_mono sub o L1 cons c hhas
  have hs1nrows : (L1.foldl (addStep sub o) cons).nrows = cons.nrows :=
    foldl_addStep_nrows sub o L1 cons
  set s1 := L1.foldl (addStep sub o) cons with hs1
  set sv := (subNumeric sub c).map (fun v => v * (o / 100)) with hsv
  set mv := (subNumeric sub c).map (fun v => Val.num (v * (1 - o / 100))) with hmv
  have hstep : addStep sub o s1 c =
      (s1.setCol c (alignAdd (s1.get c) sv)).setCol (miName c)
        (padTo (s1.setCol c (alignAdd (s1.get c) sv)).nrows mv) := by
    unfold addStep
    rw [hs1has, hnum, hic]
    simp
  have hn1 : (s1.setCol c (alignAdd (s1.get c) sv)).nrows = cons.nrows := by
    rw [DF.nrows_setCol_of_hasCol _ _ _ hs1has (alignAdd_length _ _), hs1nrows]
  have hget_c : (addStep sub o s1 c).get c = alignAdd (cons.get c) sv := by
    rw [hstep, DF.get_setCol_ne _ _ _ _ (hmi1 c hmem), DF.get_setCol_self, hs1get]
  have hget_mi : (addStep sub o s1 c).get (miName c) = padTo cons.nrows mv := by
    rw [hstep, DF.get_setCol_self, hn1]
  constructor
  · rw [foldl_addStep_get_pres sub o L2 _ c (fun c' hc' =>
      Or.inr ⟨fun hcc => hcL2 (hcc ▸ hc'), hmi1 c' (hsubL2 c' hc')⟩), hget_c]
  · rw [foldl_addStep_get_pres sub o L2 _ (miName c) (fun c' hc' =>
      Or.inr ⟨fun hcc => hmi2 (hcc ▸ hsubL2 c' hc'),
        fun hcc => hcL2 ((miName_inj hcc) ▸ hc')⟩), hget_mi]

/-! ## Sum lemmas -/

theorem sumNum_from (l : List Val) (a : ℚ) :
    l.foldl (fun a v => match v with | .num q => a + q | _ => a) a = a + sumNum l := by
  induction l generalizing a with
  | nil => simp [sumNum]
  | cons v l ih =>
    rw [List.foldl_cons]
    show l.foldl _ _ = a + sumNum (v :: l)
    rw [ih]
    show _ = a + (v :: l).foldl _ 0
    rw [List.foldl_cons, ih]
    cases v with
    | num q => simp; ring
    | str s => simp
    | nan => simp

theorem sumNum_cons (v : Val) (l : List Val) :
    sumNum (v :: l) = numOrZero v + sumNum l := by
  show (v :: l).foldl _ 0 = _
  rw [List.foldl_cons, sumNum_from]
  cases v <;> simp [numOrZero]

theorem alignAdd_nil (sv : List ℚ) : alignAdd [] sv = [] := rfl

theorem alignAdd_cons (a : Val) (cv : List Val) (b : ℚ) (sv : List ℚ) :
    alignAdd (a :: cv) (b :: sv) = Val.add a (.num b) :: alignAdd cv sv := by
  unfold alignAdd
  rw [show (a :: cv).length = cv.length + 1 from rfl, List.range_succ_eq_map,
    List.map_cons, List.map_map]
  congr 1
  · simp
  · apply List.map_congr_left
    intro i hi
    simp [Nat.succ_lt_succ_iff]

theorem sumNum_alignAdd (cv : List Val) (sv : List ℚ)
    (hnum : ∀ v ∈ cv, v.isNum = true) (hlen : sv.length = cv.length) :
    sumNum (alignAdd cv sv) = sumNum cv + sv.sum := by
  induction cv generalizing sv with
  | nil =>
    cases sv with
    | nil => simp [alignAdd_nil, sumNum]
    | cons b sv => simp at hlen
  | cons a cv ih =>
    cases sv with
    | nil => simp at hlen
    | cons b sv =>
      have ha := hnum a (by simp)
      obtain ⟨qa, rfl⟩ : ∃ qa, a = Val.num qa := by
        cases a with
        | num q => exact ⟨q, rfl⟩
        | str s => simp [Val.isNum] at ha
        | nan => simp [Val.isNum] at ha
      rw [alignAdd_cons]
      show sumNum (Val.num (qa + b) :: alignAdd cv sv) = _
      rw [sumNum_cons, sumNum_cons, ih sv (fun v hv => hnum v (by simp [hv]))
        (by simpa using hlen), List.sum_cons]
      simp [numOrZero]
      ring

theorem sum_map_mul (l : List ℚ) (k : ℚ) :
    (l.map (fun v => v * k)).sum = l.sum * k := by
  induction l with
  | nil => simp
  | cons a l ih => simp [ih]; ring

/-! ## Lemmas about the subsidiary loop of `process_consolidation` -/

theorem processStep_nrows (state s0 : DF) : (processStep state s0).nrows = state.nrows := by
  simp only [processStep]
  split
  · split
    · rw [add_subsidiary_amounts_eq_foldl]
      exact foldl_addStep_nrows _ _ _ _
    · rfl
  · rfl

theorem foldl_processStep_nrows (L : List DF) (state : DF) :
    (L.foldl processStep state).nrows = state.nrows := by
  induction L generalizing state with
  | nil => rfl
  | cons s ss ih => rw [List.foldl_cons, ih, processStep_nrows]

theorem processStep_skip (state sub : DF) (o : ℚ)
    (how : extractOwnership (safe_numeric_conversion sub) = Val.num o) (hle : o ≤ 50) :
    processStep state sub = state := by
  simp only [processStep, how]
  rw [if_neg (not_lt.mpr hle)]

theorem processStep_id_of_disjoint (state s0 : DF)
    (h : ∀ c ∈ s0.columns, state.hasCol c = false) : processStep state s0 = state := by
  simp only [processStep]
  split
  · split
    · rw [add_subsidiary_amounts_eq_foldl]
      apply foldl_addStep_skip_all
      intro c hc
      rw [columns_conv] at hc
      exact h c hc
    · rfl
  · rfl

theorem foldl_processStep_disjoint (p : DF) (L : List DF)
    (h : ∀ s ∈ L, ∀ c ∈ s.columns, (safe_numeric_conversion p).hasCol c = false) :
    L.foldl processStep (safe_numeric_conversion p) = safe_numeric_conversion p := by
  induction L with
  | nil => rfl
  | cons s ss ih =>
    rw [List.foldl_cons, processStep_id_of_disjoint _ _ (h s (by simp))]
    exact ih (fun s' hs' => h s' (by simp [hs']))

/-! ## Claim theorems -/

/-- C3 (counterexample): the code performs no key-based grouping at all.
With parent row `Account = "A", Value = 100` and a wholly owned subsidiary
row `Account = "B", Value = 50`, the spec's aggregation would produce two
rows keyed "A" and "B"; the code instead adds the subsidiary value onto
the parent row positionally, producing a single row `Account = "A",
Value = 150`, and the subsidiary's key "B" appears nowhere. -/
theorem no_key_grouping :
    ((process_consolidation ⟨[("Account", [Val.str "A"]), ("Value", [Val.num 100])]⟩
        [⟨[("Account", [Val.str "B"]), ("Value", [Val.num 50]),
           ("ownership_percentage", [Val.num 100])]⟩]).get "Account" = [Val.str "A"]) ∧
    ((process_consolidation ⟨[("Account", [Val.str "A"]), ("Value", [Val.num 100])]⟩
        [⟨[("Account", [Val.str "B"]), ("Value", [Val.num 50]),
           ("ownership_percentage", [Val.num 100])]⟩]).get "Value" = [Val.num 150]) ∧
    ((process_consolidation ⟨[("Account", [Val.str "A"]), ("Value", [Val.num 100])]⟩
        [⟨[("Account", [Val.str "B"]), ("Value", [Val.num 50]),
           ("ownership_percentage", [Val.num 100])]⟩]).nrows = 1) := by
  refine ⟨?_, ?_, ?_⟩
  · with_unfolding_all rfl
  · with_unfolding_all rfl
  · with_unfolding_all rfl

/-- C3 (amended): no grouping by key columns happens; subsidiary numeric
values are added position-by-position onto the parent's rows, so whenever
the run completes, its output has exactly the parent's row count. The
hypothesis is the no-`TypeError` condition under which the Python run
does complete: for every subsidiary column that passes the numeric-dtype
guard, the like-named converted parent column holds no text cell. It is
sufficient because the only raising statement is
`consolidated[column] += ...` (a text cell in the consolidated column
meeting a float series), every column the loop writes consists of numbers
and NaN only, and a column never written keeps its converted-parent
content, so under the hypothesis no addition ever meets a text cell. -/
theorem row_count_follows_parent (p : DF) (subs : List DF)
    (_hsafe : ∀ s ∈ subs, ∀ c ∈ s.columns,
      is_numeric_column ((safe_numeric_conversion s).get c) = true →
        is_numeric_column ((safe_numeric_conversion p).get c) = true) :
    (process_consolidation p subs).nrows = p.nrows := by
  unfold process_consolidation
  rw [foldl_processStep_nrows, nrows_conv]

theorem row_count_follows_parent_witness :
    (∀ s ∈ [(⟨[("Account", [Val.str "B"]), ("Value", [Val.num 50]),
        ("ownership_percentage", [Val.num 100])]⟩ : DF)], ∀ c ∈ s.columns,
      is_numeric_column ((safe_numeric_conversion s).get c) = true →
        is_numeric_column ((safe_numeric_conversion
          ⟨[("Account", [Val.str "A"]), ("Value", [Val.num 100])]⟩).get c) = true) ∧
    (process_consolidation ⟨[("Account", [Val.str "A"]), ("Value", [Val.num 100])]⟩
        [⟨[("Account", [Val.str "B"]), ("Value", [Val.num 50]),
           ("ownership_percentage", [Val.num 100])]⟩]).nrows =
      (⟨[("Account", [Val.str "A"]), ("Value", [Val.num 100])]⟩ : DF).nrows :=
  ⟨by decide, row_count_follows_parent _ _ (by decide)⟩

/-- C4: a subsidiary whose extracted ownership percentage is at or below
the 50 control threshold is skipped entirely: consolidation over any
subsidiary list containing it produces exactly the output obtained
without it, so it contributes nothing to any output. -/
theorem subsidiary_at_or_below_threshold_ignored (p sub : DF) (pre post : List DF) (o : ℚ)
    (how : extractOwnership (safe_numeric_conversion sub) = Val.num o) (hle : o ≤ 50) :
    process_consolidation p (pre ++ sub :: post) = process_consolidation p (pre ++ post) := by
  unfold process_consolidation
  rw [List.foldl_append, List.foldl_append, List.foldl_cons,
    processStep_skip _ _ _ how hle]

theorem subsidiary_at_or_below_threshold_ignored_witness :
    extractOwnership (safe_numeric_conversion
      ⟨[("a", [Val.num 5]), ("ownership_percentage", [Val.num 40])]⟩) = Val.num 40 ∧
    process_consolidation ⟨[("a", [Val.num 1])]⟩
        [⟨[("a", [Val.num 5]), ("ownership_percentage", [Val.num 40])]⟩] =
      process_consolidation ⟨[("a", [Val.num 1])]⟩ [] :=
  ⟨by decide,
    subsidiary_at_or_below_threshold_ignored _ _ [] [] 40 (by decide) (by norm_num)⟩

/-- C5 (counterexample): no row-level intercompany elimination exists.
The spec's example parent row `Account = "Intercompany Loan", Value = 200`
should be removed from the consolidated output with its total recorded in
an eliminated set; the code keeps the row unchanged in the output and
produces no eliminated record. -/
theorem intercompany_row_not_eliminated :
    ((process_consolidation
        ⟨[("Account", [Val.str "Intercompany Loan"]), ("Value", [Val.num 200])]⟩ []).get
          "Account" = [Val.str "Intercompany Loan"]) ∧
    ((process_consolidation
        ⟨[("Account", [Val.str "Intercompany Loan"]), ("Value", [Val.num 200])]⟩ []).get
          "Value" = [Val.num 200]) ∧
    ((process_consolidation
        ⟨[("Account", [Val.str "Intercompany Loan"]), ("Value", [Val.num 200])]⟩ []).nrows
          = 1) := by
  refine ⟨?_, ?_, ?_⟩
  · rfl
  · rfl
  · rfl

/-- C5 (amended): the only intercompany handling is column-wise: a column
whose lowercased name contains "intercompany" is skipped by the
subsidiary-addition loop, so the consolidated column keeps exactly the
parent-side values and the subsidiary's values for it are dropped with no
audit record (nothing is returned for the dropped amounts). -/
theorem intercompany_column_skipped (cons sub : DF) (e : Eliminations) (o : ℚ) (x : String)
    (hic : containsIC x = true) (hmi : ∀ c ∈ sub.columns, x ≠ miName c) :
    (add_subsidiary_amounts cons sub e o).get x = cons.get x := by
  rw [add_subsidiary_amounts_eq_foldl]
  apply foldl_addStep_get_pres
  intro c hc
  by_cases hxc : x = c
  · exact Or.inl (hxc ▸ hic)
  · exact Or.inr ⟨hxc, hmi c hc⟩

theorem intercompany_column_skipped_witness :
    containsIC "intercompany_fees" = true ∧
    (add_subsidiary_amounts ⟨[("intercompany_fees", [Val.num 5])]⟩
        ⟨[("intercompany_fees", [Val.num 7])]⟩ ⟨0, 0, 0⟩ 80).get "intercompany_fees" =
      (⟨[("intercompany_fees", [Val.num 5])]⟩ : DF).get "intercompany_fees" :=
  ⟨by decide, intercompany_column_skipped _ _ _ _ _ (by decide) (by decide)⟩

/-- C6 (counterexample): there is no `SchemaMismatch` failure. With a
parent owning only column "a" and a wholly owned subsidiary owning only
column "b" (zero common columns), the run does not abort: it completes
normally and returns the parent's table unchanged. -/
theorem disjoint_schema_no_error :
    process_consolidation ⟨[("a", [Val.num 1])]⟩ [⟨[("b", [Val.num 2])]⟩]
      = ⟨[("a", [Val.num 1])]⟩ := by
  with_unfolding_all rfl

/-- C6 (amended): when every subsidiary's columns are disjoint from the
parent's, consolidation silently ignores all subsidiaries and returns the
numeric-converted parent table; no error of any kind is raised and no
output is withheld. -/
theorem disjoint_schema_returns_parent (p : DF) (subs : List DF)
    (h : ∀ s ∈ subs, ∀ c ∈ s.columns, p.hasCol c = false) :
    process_consolidation p subs = safe_numeric_conversion p := by
  unfold process_consolidation
  apply foldl_processStep_disjoint
  intro s hs c hc
  rw [hasCol_conv]
  exact h s hs c hc

theorem disjoint_schema_returns_parent_witness :
    (∀ s ∈ [(⟨[("b", [Val.num 2])]⟩ : DF)], ∀ c ∈ s.columns,
      (⟨[("a", [Val.num 1])]⟩ : DF).hasCol c = false) ∧
    process_consolidation ⟨[("a", [Val.num 1])]⟩ [⟨[("b", [Val.num 2])]⟩] =
      safe_numeric_conversion ⟨[("a", [Val.num 1])]⟩ :=
  ⟨by decide, disjoint_schema_returns_parent _ _ (by decide)⟩

/-- C7: `_calculate_eliminations` returns the parent's summed
investment-in-subsidiary column when present and `0` otherwise, and the
minimum of the parent's summed intercompany receivables and the
subsidiary's summed intercompany payables when both columns are present
and `0` otherwise. -/
theorem calculate_eliminations_spec (p s : DF) :
    ((p.hasCol "investment_in_subsidiary" = true →
        (calculate_eliminations p s).investment =
          sumNum ((p.get "investment_in_subsidiary").map toNumeric)) ∧
     (p.hasCol "investment_in_subsidiary" = false →
        (calculate_eliminations p s).investment = 0)) ∧
    (((p.hasCol "intercompany_receivables" && s.hasCol "intercompany_payables") = true →
        (calculate_eliminations p s).intercompany_transactions =
          min (sumNum ((p.get "intercompany_receivables").map toNumeric))
              (sumNum ((s.get "intercompany_payables").map toNumeric))) ∧
     ((p.hasCol "intercompany_receivables" && s.hasCol "intercompany_payables") = false →
        (calculate_eliminations p s).intercompany_transactions = 0)) := by
  refine ⟨⟨fun h => ?_, fun h => ?_⟩, fun h => ?_, fun h => ?_⟩
  · simp [calculate_eliminations, h]
  · simp [calculate_eliminations, h]
  · simp [calculate_eliminations, h]
  · simp [calculate_eliminations, h]

theorem calculate_eliminations_spec_witness :
    (calculate_eliminations
        ⟨[("investment_in_subsidiary", [Val.num 30]), ("intercompany_receivables", [Val.num 9])]⟩
        ⟨[("intercompany_payables", [Val.num 7])]⟩).investment =
      sumNum (((⟨[("investment_in_subsidiary", [Val.num 30]),
        ("intercompany_receivables", [Val.num 9])]⟩ : DF).get
          "investment_in_subsidiary").map toNumeric) ∧
    (calculate_eliminations
        ⟨[("investment_in_subsidiary", [Val.num 30]), ("intercompany_receivables", [Val.num 9])]⟩
        ⟨[("intercompany_payables", [Val.num 7])]⟩).intercompany_transactions =
      min (sumNum (((⟨[("investment_in_subsidiary", [Val.num 30]),
            ("intercompany_receivables", [Val.num 9])]⟩ : DF).get
              "intercompany_receivables").map toNumeric))
          (sumNum (((⟨[("intercompany_payables", [Val.num 7])]⟩ : DF).get
              "intercompany_payables").map toNumeric)) :=
  ⟨(calculate_eliminations_spec _ _).1.1 (by decide),
   (calculate_eliminations_spec _ _).2.1 (by decide)⟩

/-- C8: in `_safe_numeric_conversion`, a column is classified numeric when
any of its cells parses as a number; in that case every cell that fails
numeric parsing is coerced to `0` (via NaN and `fillna(0)`) without any
failure propagating, and a column in which nothing parses is left entirely
unchanged. -/
theorem safe_numeric_conversion_spec (df : DF) (c : String) (h : df.hasCol c = true) :
    (((df.get c).map toNumeric).any Val.isNum = true →
      (safe_numeric_conversion df).get c = ((df.get c).map toNumeric).map fillZero) ∧
    (((df.get c).map toNumeric).any Val.isNum = false →
      (safe_numeric_conversion df).get c = df.get c) := by
  constructor
  · intro hm
    rw [get_conv, if_pos h]
    simp [convertColumn, hm]
  · intro hm
    rw [get_conv, if_pos h]
    simp [convertColumn, hm]

theorem safe_numeric_conversion_spec_witness :
    (⟨[("x", [Val.num 1, Val.str "abc"])]⟩ : DF).hasCol "x" = true ∧
    (safe_numeric_conversion ⟨[("x", [Val.num 1, Val.str "abc"])]⟩).get "x" =
      (((⟨[("x", [Val.num 1, Val.str "abc"])]⟩ : DF).get "x").map toNumeric).map fillZero :=
  ⟨by decide, (safe_numeric_conversion_spec _ "x" (by decide)).1 (by decide)⟩

/-- C9: consolidation is a deterministic pure function of its inputs: two
runs of `process_consolidation` on equal parent tables and equal
subsidiary lists produce equal outputs. -/
theorem process_consolidation_deterministic (p1 p2 : DF) (s1 s2 : List DF)
    (hp : p1 = p2) (hs : s1 = s2) :
    process_consolidation p1 s1 = process_consolidation p2 s2 := by
  rw [hp, hs]

theorem process_consolidation_deterministic_witness :
    process_consolidation ⟨[("a", [Val.num 1])]⟩ [⟨[("a", [Val.num 2])]⟩] =
      process_consolidation ⟨[("a", [Val.num 1])]⟩ [⟨[("a", [Val.num 2])]⟩] :=
  process_consolidation_deterministic _ _ _ _ rfl rfl

/-- C1 (counterexample): the conservation law fails on columns whose name
contains "intercompany". With parent `intercompany_fees = 10` and a wholly
owned subsidiary `intercompany_fees = 20`, the column's consolidated sum
is `10`, there is no eliminated set (so the eliminated sum is `0`), yet
the contributing input rows sum to `30`: the subsidiary's `20` is dropped
without being re-bucketed or recorded anywhere. -/
theorem conservation_violated_at_intercompany_column :
    (sumNum ((process_consolidation
        ⟨[("sales", [Val.num 100]), ("intercompany_fees", [Val.num 10])]⟩
        [⟨[("sales", [Val.num 50]), ("intercompany_fees", [Val.num 20])]⟩]).get
          "intercompany_fees") = 10) ∧
    (sumNum ((⟨[("sales", [Val.num 100]), ("intercompany_fees", [Val.num 10])]⟩ : DF).get
          "intercompany_fees") +
        (100 / 100 : ℚ) *
          sumNum ((⟨[("sales", [Val.num 50]), ("intercompany_fees", [Val.num 20])]⟩ : DF).get
            "intercompany_fees") = 30) ∧
    ((10 : ℚ) ≠ 30) := by
  refine ⟨?_, ?_, ?_⟩
  · with_unfolding_all rfl
  · with_unfolding_all rfl
  · norm_num

/-- C1 (amended): conservation holds column-wise, and only for columns
that are shared, numeric on the subsidiary side, not intercompany-named,
unaffected by name collisions with minority-interest columns, all-numeric
on the consolidated side, and row-aligned with the parent: for such a
column one subsidiary addition yields new sum = old sum + (ownership/100)
times the subsidiary's raw column sum, with no eliminated set involved. -/
theorem conservation_per_column_amended (cons sub : DF) (e : Eliminations) (o : ℚ)
    (c : String)
    (hnd : sub.columns.Nodup) (hmem : c ∈ sub.columns)
    (hhas : cons.hasCol c = true) (hnum : is_numeric_column (sub.get c) = true)
    (hic : containsIC c = false)
    (hmi1 : ∀ c' ∈ sub.columns, c ≠ miName c')
    (hmi2 : miName c ∉ sub.columns)
    (hcv : ∀ v ∈ cons.get c, v.isNum = true)
    (hlen : (sub.get c).length = (cons.get c).length) :
    sumNum ((add_subsidiary_amounts cons sub e o).get c) =
      sumNum (cons.get c) + (o / 100) * (subNumeric sub c).sum := by
  rw [(addSub_get_write cons sub e o c hnd hmem hhas hnum hic hmi1 hmi2).1,
    sumNum_alignAdd _ _ hcv (by simp [subNumeric, hlen]), sum_map_mul]
  ring

theorem conservation_per_column_amended_witness :
    (⟨[("sales", [Val.num 50])]⟩ : DF).columns.Nodup ∧
    sumNum ((add_subsidiary_amounts ⟨[("sales", [Val.num 100])]⟩
        ⟨[("sales", [Val.num 50])]⟩ ⟨0, 0, 0⟩ 80).get "sales") =
      sumNum ((⟨[("sales", [Val.num 100])]⟩ : DF).get "sales") +
        ((80 : ℚ) / 100) * (subNumeric ⟨[("sales", [Val.num 50])]⟩ "sales").sum :=
  ⟨by decide,
   conservation_per_column_amended ⟨[("sales", [Val.num 100])]⟩ ⟨[("sales", [Val.num 50])]⟩
     ⟨0, 0, 0⟩ 80 "sales" (by decide) (by decide) (by decide) (by decide) (by decide)
     (by decide) (by decide) (by decide) (by decide)⟩

/-- C2 (counterexample): a later subsidiary overwrites an earlier one's
minority interest. Subsidiary 1 has raw value 10 at 60 ownership, so its
minority interest for column "val" is 10 × (1 − 0.6) = 4; after subsidiary
2 (raw 30 at 80 ownership) is processed, the single `minority_interest_val`
column holds 6, and the value 4 reported for subsidiary 1 has been
overwritten rather than kept independent. -/
theorem minority_interest_overwritten :
    ((process_consolidation ⟨[("val", [Val.num 0])]⟩
        [⟨[("val", [Val.num 10]), ("ownership_percentage", [Val.num 60])]⟩,
         ⟨[("val", [Val.num 30]), ("ownership_percentage", [Val.num 80])]⟩]).get
          "minority_interest_val" = [Val.num 6]) ∧
    Val.num 6 ≠ Val.num (10 * (1 - 60 / 100 : ℚ)) := by
  constructor
  · with_unfolding_all rfl
  · intro h
    rw [Val.num.injEq] at h
    norm_num at h

/-- C2 (amended): for the subsidiary processed by one call (in the run,
the last qualifying subsidiary sharing the column), the stored
`minority_interest_c` values equal raw (unscaled) subsidiary value times
(1 − ownership/100), computed from this subsidiary's data alone. The
consolidated-side numericity hypothesis (only numbers and NaN in the
consolidated column) confines the statement to the raise-free region:
with a text cell there
the program would raise `TypeError` at `consolidated[c] += ...` and never
reach the minority-interest assignment. -/
theorem minority_interest_last_write_amended (cons sub : DF) (e : Eliminations) (o : ℚ)
    (c : String)
    (hnd : sub.columns.Nodup) (hmem : c ∈ sub.columns)
    (hhas : cons.hasCol c = true) (hnum : is_numeric_column (sub.get c) = true)
    (_hsafe : is_numeric_column (cons.get c) = true)
    (hic : containsIC c = false)
    (hmi1 : ∀ c' ∈ sub.columns, c ≠ miName c')
    (hmi2 : miName c ∉ sub.columns) :
    (add_subsidiary_amounts cons sub e o).get (miName c) =
      padTo cons.nrows ((subNumeric sub c).map (fun v => Val.num (v * (1 - o / 100)))) :=
  (addSub_get_write cons sub e o c hnd hmem hhas hnum hic hmi1 hmi2).2

theorem minority_interest_last_write_amended_witness :
    (⟨[("rev", [Val.num 40])]⟩ : DF).columns.Nodup ∧
    (add_subsidiary_amounts ⟨[("rev", [Val.num 200])]⟩ ⟨[("rev", [Val.num 40])]⟩
        ⟨0, 0, 0⟩ 60).get (miName "rev") =
      padTo (⟨[("rev", [Val.num 200])]⟩ : DF).nrows
        ((subNumeric ⟨[("rev", [Val.num 40])]⟩ "rev").map
          (fun v => Val.num (v * (1 - (60 : ℚ) / 100)))) :=
  ⟨by decide,
   minority_interest_last_write_amended ⟨[("rev", [Val.num 200])]⟩ ⟨[("rev", [Val.num 40])]⟩
     ⟨0, 0, 0⟩ 60 "rev" (by decide) (by decide) (by decide) (by decide) (by decide)
     (by decide) (by decide) (by decide)⟩

/-- C10: ownership is read from the subsidiary's own
`ownership_percentage` column; when the column is absent or empty the
ownership defaults to 100, and a subsidiary processed at ownership 100 is
consolidated at full value (scale factor 1) with every computed
minority-interest value equal to 0. The second part carries the
consolidated-side numericity hypothesis (only numbers and NaN in the
consolidated column) confining it to the raise-free region: with a text
cell there the program would raise `TypeError` at
`consolidated[c] += ...` and consolidate nothing. -/
theorem ownership_default_full_consolidation (sub cons : DF) (e : Eliminations) (c : String) :
    (sub.get "ownership_percentage" = [] → extractOwnership sub = Val.num 100) ∧
    (sub.columns.Nodup → c ∈ sub.columns → cons.hasCol c = true →
      is_numeric_column (sub.get c) = true →
      is_numeric_column (cons.get c) = true → containsIC c = false →
      (∀ c' ∈ sub.columns, c ≠ miName c') → miName c ∉ sub.columns →
      ((add_subsidiary_amounts cons sub e 100).get c =
          alignAdd (cons.get c) (subNumeric sub c)) ∧
      ((add_subsidiary_amounts cons sub e 100).get (miName c) =
          padTo cons.nrows ((subNumeric sub c).map (fun _ => Val.num 0)))) := by
  constructor
  · intro h
    unfold extractOwnership
    by_cases hc : sub.hasCol "ownership_percentage" = true
    · rw [if_pos hc, h]
      rfl
    · rw [if_neg hc]
  · intro hnd hmem hhas hnum _hsafe hic hmi1 hmi2
    have H := addSub_get_write cons sub e 100 c hnd hmem hhas hnum hic hmi1 hmi2
    have e1 : (fun v : ℚ => v * ((100 : ℚ) / 100)) = fun v : ℚ => v := by
      funext v
      norm_num
    have e2 : (fun v : ℚ => Val.num (v * (1 - (100 : ℚ) / 100))) =
        fun _ : ℚ => Val.num 0 := by
      funext v
      norm_num
    constructor
    · rw [H.1, e1, List.map_id']
    · rw [H.2, e2]

theorem ownership_default_full_consolidation_witness :
    (⟨[("rev2", [Val.num 8])]⟩ : DF).get "ownership_percentage" = [] ∧
    extractOwnership ⟨[("rev2", [Val.num 8])]⟩ = Val.num 100 ∧
    (add_subsidiary_amounts ⟨[("rev2", [Val.num 1])]⟩ ⟨[("rev2", [Val.num 8])]⟩
        ⟨0, 0, 0⟩ 100).get "rev2" =
      alignAdd ((⟨[("rev2", [Val.num 1])]⟩ : DF).get "rev2")
        (subNumeric ⟨[("rev2", [Val.num 8])]⟩ "rev2") :=
  ⟨by decide,
   (ownership_default_full_consolidation ⟨[("rev2", [Val.num 8])]⟩ ⟨[("rev2", [Val.num 1])]⟩
     ⟨0, 0, 0⟩ "rev2").1 (by decide),
   ((ownership_default_full_consolidation ⟨[("rev2", [Val.num 8])]⟩ ⟨[("rev2", [Val.num 1])]⟩
     ⟨0, 0, 0⟩ "rev2").2 (by decide) (by decide) (by decide) (by decide) (by decide)
     (by decide) (by decide) (by decide)).1⟩

section Sanity

/-- Spec example: parent Revenue 1000, subsidiary Revenue 500 at 80%
ownership consolidates Revenue to 1400 with minority interest 100. -/
example :
    (process_consolidation
      ⟨[("Revenue", [Val.num 1000])]⟩
      [⟨[("Revenue", [Val.num 500]), ("ownership_percentage", [Val.num 80])]⟩]).get "Revenue"
      = [Val.num 1400] := by with_unfolding_all rfl

example :
    (process_consolidation
      ⟨[("Revenue", [Val.num 1000])]⟩
      [⟨[("Revenue", [Val.num 500]), ("ownership_percentage", [Val.num 80])]⟩]).get
        "minority_interest_Revenue" = [Val.num 100] := by with_unfolding_all rfl

end Sanity
